import Mathlib

/-!
Verification of the multi-bot orchestration core of MaiCore-Start.

Shallow embedding of `src/multi_bot/bot_instance.py`, `bot_group.py`,
`multi_bot_manager.py` and `port_manager.py`.  Python dicts are embedded as
association lists in insertion order (a Python dict always has pairwise
distinct keys, which appears as `Nodup` hypotheses where a proof needs it);
`datetime.now()` is an explicit `now : Nat` argument; file and socket I/O is
parametrised away (the socket probe of `is_port_available` becomes an oracle
`probe : Nat → Bool`, persistence via `save_config` does not change the
in-memory state that the claims are about).  Bodies that in Python sit inside
a `try` whose statements are plain attribute assignments cannot raise, so the
`except` arms are dead in the model.
-/

set_option linter.unusedVariables false

/-- Lookup in an association list: Python `d.get(k)` / `d[k]`, first binding wins. -/
def alookup {κ α : Type} [DecidableEq κ] (k : κ) : List (κ × α) → Option α
  | [] => none
  | p :: rest => if p.1 = k then some p.2 else alookup k rest

/-- Values attached to string keys in an opaque Python config dict. -/
abbrev Config := List (String × String)

/-- State of one `BotInstance` (bot_instance.py, `__init__` fields). -/
structure BotInstance where
  instance_id : String
  config : Config
  is_running : Bool
  process_info : Option (List (String × Nat))
  start_time : Option Nat
  stop_time : Option Nat
  status : String
  error_message : Option String
  pid : Option Nat
  resource_usage : List (String × Nat)
  last_update : Option Nat
deriving DecidableEq, Repr

/-- `BotInstance.__init__`: fresh instance, stopped, nothing recorded yet. -/
def initInstance (instance_id : String) (config : Config) : BotInstance :=
  { instance_id := instance_id
    config := config
    is_running := false
    process_info := none
    start_time := none
    stop_time := none
    status := "stopped"
    error_message := none
    pid := none
    resource_usage := []
    last_update := none }

/-- `BotInstance.start(process_info)`: marks running, records pid from
`process_info.get("pid")` and the start time, clears the error message.
The assignments cannot raise, so the `except` branch is dead and the
returned flag is `true`. -/
def BotInstance.start (b : BotInstance) (process_info : List (String × Nat))
    (now : Nat) : Bool × BotInstance :=
  (true,
    { b with
      is_running := true
      status := "running"
      process_info := some process_info
      pid := alookup "pid" process_info
      start_time := some now
      error_message := none
      last_update := some now })

/-- `BotInstance.stop()`: marks stopped, clears pid and process info,
records the stop time; always returns `true`. -/
def BotInstance.stop (b : BotInstance) (now : Nat) : Bool × BotInstance :=
  (true,
    { b with
      is_running := false
      status := "stopped"
      stop_time := some now
      pid := none
      process_info := none
      last_update := some now })

/-- `BotInstance.pause()`: guarded by `if not self.is_running: return False`;
otherwise sets the status to `"paused"` and returns `True`. -/
def BotInstance.pause (b : BotInstance) (now : Nat) : Bool × BotInstance :=
  if b.is_running = false then (false, b)
  else (true, { b with status := "paused", last_update := some now })

/-- `BotInstance.resume()`: guarded by `if self.status != "paused"`; otherwise
sets the status to `"running"` and returns `True`. -/
def BotInstance.resume (b : BotInstance) (now : Nat) : Bool × BotInstance :=
  if b.status ≠ "paused" then (false, b)
  else (true, { b with status := "running", last_update := some now })

/-- `BotInstance.set_error(message)`: forces status `"error"` and records the
message; it does not touch `is_running`. -/
def BotInstance.set_error (b : BotInstance) (error_message : String)
    (now : Nat) : BotInstance :=
  { b with
    status := "error"
    error_message := some error_message
    last_update := some now }

/-- The spec's derived-boolean sync: `is_running` is true exactly when the
status is `"running"` or `"paused"`. -/
def statusSync (b : BotInstance) : Prop :=
  b.is_running = true ↔ (b.status = "running" ∨ b.status = "paused")

instance (b : BotInstance) : Decidable (statusSync b) := by
  unfold statusSync; infer_instance

/-- State of one `BotGroup` (bot_group.py): a named set of instances indexed
by instance id. -/
structure BotGroup where
  group_name : String
  group_config : Config
  instances : List (String × BotInstance)
deriving DecidableEq, Repr

/-- `BotGroup.add_instance`: duplicate-id rejection, otherwise the instance
is inserted under its id (at the end, Python dict insertion order). -/
def BotGroup.add_instance (g : BotGroup) (inst : BotInstance) : Bool × BotGroup :=
  if (alookup inst.instance_id g.instances).isSome then (false, g)
  else (true, { g with instances := g.instances ++ [(inst.instance_id, inst)] })

/-- `BotGroup.get_running_instances`: the instances whose `is_running` flag
is set, in iteration order. -/
def BotGroup.get_running_instances (g : BotGroup) : List BotInstance :=
  (g.instances.filter (fun ki => ki.2.is_running)).map Prod.snd

/-- `BotGroup.start_all`: for every instance with `is_running` false it
records `results[instance_id] = True`; the loop body never touches the
instance itself (the comment in the source defers actual starting to
MultiBotManager), so the group comes back unchanged. -/
def BotGroup.start_all (g : BotGroup) : List (String × Bool) × BotGroup :=
  (g.instances.filterMap
      (fun ki => if ki.2.is_running then none else some (ki.1, true)),
   g)

/-- `BotGroup.stop_all`: calls `instance.stop()` on every instance with
`is_running` set, recording the returned flag per id; other instances are
untouched. -/
def BotGroup.stop_all (g : BotGroup) (now : Nat) : List (String × Bool) × BotGroup :=
  (g.instances.filterMap
      (fun ki =>
        if ki.2.is_running then some (ki.1, (BotInstance.stop ki.2 now).1)
        else none),
   { g with
      instances := g.instances.map
        (fun ki =>
          (ki.1, if ki.2.is_running then (BotInstance.stop ki.2 now).2 else ki.2)) })

/-- State of the `MultiBotManager` registry (multi_bot_manager.py): the group
map.  The callback table and the persistence path play no part in the claims
below; `save_config` only writes the state file and leaves the in-memory
registry alone, so it is the identity here. -/
structure MultiBotManager where
  groups : List (String × BotGroup)
deriving DecidableEq, Repr

/-- Python `del d[k]`: drop the (unique) binding of `k`. -/
def eraseKey {α : Type} (k : String) : List (String × α) → List (String × α)
  | [] => []
  | p :: rest => if p.1 = k then rest else p :: eraseKey k rest

/-- `MultiBotManager.delete_group`: missing group or a group with running
instances is rejected without mutation; otherwise the group is removed (and
the registry persisted). -/
def MultiBotManager.delete_group (m : MultiBotManager) (group_name : String) :
    Bool × MultiBotManager :=
  match alookup group_name m.groups with
  | none => (false, m)
  | some g =>
    if (BotGroup.get_running_instances g).isEmpty then
      (true, ⟨eraseKey group_name m.groups⟩)
    else (false, m)

/-- What `import_config` reads back per instance from an exported file: the
`config` mapping (JSON round-trips it unchanged) plus the serialized status,
which import ignores. -/
structure InstanceExport where
  config : Config
  statusAtExport : String
deriving DecidableEq, Repr

/-- One group as serialized by `export_config` via `BotGroup.to_dict`. -/
structure GroupExport where
  group_config : Config
  instances : List (String × InstanceExport)
deriving DecidableEq, Repr

/-- The part of `BotGroup.to_dict()` that `import_config` consumes. -/
def exportGroup (g : BotGroup) : GroupExport :=
  ⟨g.group_config,
    g.instances.map (fun ki => (ki.1, ⟨ki.2.config, ki.2.status⟩))⟩

/-- `MultiBotManager.export_config`: serializes every group (the file also
carries version and timestamp metadata, which import ignores). -/
def MultiBotManager.export_config (m : MultiBotManager) :
    List (String × GroupExport) :=
  m.groups.map (fun ng => (ng.1, exportGroup ng.2))

/-- The group-reconstruction loop of `import_config`: a fresh `BotGroup` with
the imported `group_config`, then `BotInstance(instance_id, config)` plus
`add_instance` for each serialized instance — every rebuilt instance goes
through `BotInstance.__init__`, hence status `"stopped"`. -/
def buildImportedGroup (group_name : String) (d : GroupExport) : BotGroup :=
  d.instances.foldl
    (fun g ki => (BotGroup.add_instance g (initInstance ki.1 ki.2.config)).2)
    ⟨group_name, d.group_config, []⟩

/-- `MultiBotManager.import_config`: group names already present are skipped;
new names are registered in file order. -/
def MultiBotManager.import_config (m : MultiBotManager)
    (data : List (String × GroupExport)) : MultiBotManager :=
  ⟨data.foldl
      (fun gs nd =>
        if (alookup nd.1 gs).isSome then gs
        else gs ++ [(nd.1, buildImportedGroup nd.1 nd.2)])
      m.groups⟩

/-- A fresh `MultiBotManager` with no state file: empty registry. -/
def emptyManager : MultiBotManager := ⟨[]⟩

/-- `PortAllocator.RESERVED_PORTS` (port_manager.py). -/
def RESERVED_PORTS : List Nat :=
  [22, 23, 25, 53, 67, 68, 80, 123, 143, 161, 162, 389, 443, 465, 587,
   636, 993, 995, 3306, 3389, 5432, 5984, 6379, 27017, 27018, 27019, 27020,
   3000, 4200, 5000, 5005, 8080, 8443, 9000, 9090, 9200, 9300]

/-- State of one `PortAllocator` (port_manager.py). -/
structure PortAllocator where
  start_port : Nat
  end_port : Nat
  allocated_ports : List Nat
  port_mappings : List (String × Nat)
deriving DecidableEq, Repr

/-- `PortAllocator.is_port_available`: not already allocated, not reserved,
and the loopback probe finds it free.  `probe` stands for the outcome of the
`connect_ex` check (`true` = connect failed = free); the `except` arm, like a
successful connect, yields `False`. -/
def is_port_available (probe : Nat → Bool) (a : PortAllocator) (port : Nat) : Bool :=
  if a.allocated_ports.contains port then false
  else if RESERVED_PORTS.contains port then false
  else probe port

/-- Python `set.add`. -/
def addPort (l : List Nat) (p : Nat) : List Nat :=
  if l.contains p then l else l ++ [p]

/-- `PortAllocator.allocate_port`: an already-mapped id gets its old port
back untouched; otherwise the preferred port is tried (Python truthiness:
`preferred_port` 0 or None falls through), then the range
`[start_port, end_port)` is scanned for the first available port; `none`
signals range exhaustion. -/
def allocate_port (probe : Nat → Bool) (a : PortAllocator)
    (instance_id : String) (preferred_port : Option Nat) :
    Option Nat × PortAllocator :=
  match alookup instance_id a.port_mappings with
  | some p => (some p, a)
  | none =>
    let tryPref : Option Nat :=
      match preferred_port with
      | some pp =>
        if pp ≠ 0 ∧ is_port_available probe a pp = true then some pp else none
      | none => none
    match tryPref with
    | some pp =>
      (some pp,
        { a with
          allocated_ports := addPort a.allocated_ports pp
          port_mappings := a.port_mappings ++ [(instance_id, pp)] })
    | none =>
      match (List.range' a.start_port (a.end_port - a.start_port)).find?
          (is_port_available probe a) with
      | some port =>
        (some port,
          { a with
            allocated_ports := addPort a.allocated_ports port
            port_mappings := a.port_mappings ++ [(instance_id, port)] })
      | none => (none, a)

/-- The grouping step of `find_conflicting_ports`: append the instance id to
the bucket of its port, creating the bucket on first sight. -/
def addConflict (acc : List (Nat × List String)) (instance_id : String)
    (port : Nat) : List (Nat × List String) :=
  if acc.any (fun e => decide (e.1 = port)) then
    acc.map (fun e => if e.1 = port then (e.1, e.2 ++ [instance_id]) else e)
  else acc ++ [(port, [instance_id])]

/-- The `port_to_instances` dict of `find_conflicting_ports`, built in
mapping iteration order. -/
def portToInstances (ms : List (String × Nat)) : List (Nat × List String) :=
  ms.foldl (fun acc kv => addConflict acc kv.1 kv.2) []

/-- `PortAllocator.find_conflicting_ports`: keep only the ports whose bucket
holds more than one instance id. -/
def find_conflicting_ports (a : PortAllocator) : List (Nat × List String) :=
  (portToInstances a.port_mappings).filter (fun e => decide (1 < e.2.length))

/-- All instance ids currently mapped to port `p`, in mapping order. -/
def keysFor (p : Nat) (ms : List (String × Nat)) : List String :=
  (ms.filter (fun kv => decide (kv.2 = p))).map Prod.fst

/-- The composite allocation key of `BotPortManager.allocate_port_for_instance`
(port_manager.py): `unique_id = f"{group_name}_{instance_id}"`. -/
def make_unique_id (group_name instance_id : String) : String :=
  group_name ++ "_" ++ instance_id

/-- Python regex `\\d`. -/
def isDigitCh (c : Char) : Bool :=
  decide ('0' ≤ c ∧ c ≤ '9')

/-- Whether the head of a list is a digit (`re.match(r'\\d', ...)`). -/
def headDigit : List Char → Bool
  | [] => false
  | c :: _ => isDigitCh c

/-- Whether `re.match(r'PORT=\\d+', l)` succeeds at this position: the
literal `PORT=` followed by at least one digit. -/
def portMatchAt (l : List Char) : Bool :=
  ("PORT=".data).isPrefixOf l && headDigit (l.drop ("PORT=".data).length)

/-- `re.sub(r'PORT=\\d+', rep, l)`: scan left to right; at a match of
`PORT=` followed by at least one digit, emit `rep`, consume the greedy digit
run and continue after it (non-overlapping); otherwise advance one
character.  The fuel only bounds the recursion and is never exhausted when
it starts at `length + 1`, since every step consumes at least one
character. -/
def subPDFuel (rep : List Char) : Nat → List Char → List Char
  | _, [] => []
  | 0, l => l
  | fuel + 1, c :: rest =>
    if portMatchAt (c :: rest) then
      rep ++ subPDFuel rep fuel
        (List.dropWhile isDigitCh ((c :: rest).drop ("PORT=".data).length))
    else c :: subPDFuel rep fuel rest

/-- `re.sub(r'PORT=\\d+', rep, l)` with sufficient fuel. -/
def subPortSub (rep : List Char) (l : List Char) : List Char :=
  subPDFuel rep (l.length + 1) l

/-- `re.sub(f'{key}=.*', rep, l)` for a literal key: at an occurrence of
`pat = key ++ "="`, emit `rep`, consume greedily to the end of the line
(`.` does not cross a newline) and continue there; otherwise advance one
character. -/
def subKeyFuel (pat rep : List Char) : Nat → List Char → List Char
  | _, [] => []
  | 0, l => l
  | fuel + 1, c :: rest =>
    if pat.isPrefixOf (c :: rest) then
      rep ++ subKeyFuel pat rep fuel
        (List.dropWhile (fun ch => decide (¬ ch = '\n'))
          (List.drop pat.length (c :: rest)))
    else c :: subKeyFuel pat rep fuel rest

/-- `re.sub(f'{key}=.*', rep, l)` with sufficient fuel. -/
def subKeySub (pat rep : List Char) (l : List Char) : List Char :=
  subKeyFuel pat rep (l.length + 1) l

/-- Python substring membership `pat in content` (also the semantics of
`re.search(f'{key}=.*', content)` for a literal key, since `.*` matches the
empty string). -/
def containsSub (pat : List Char) : List Char → Bool
  | [] => pat.isEmpty
  | c :: rest => pat.isPrefixOf (c :: rest) || containsSub pat rest

/-- The PORT step of `BotPortManager.setup_env_file`: if the substring
`PORT=` occurs anywhere (an exact-key anchor is absent), substitute
`PORT=\\d+` matches; otherwise append a fresh `PORT` line. -/
def updatePortContent (port : Nat) (content : List Char) : List Char :=
  if containsSub ("PORT=".data) content then
    subPortSub (("PORT=" ++ toString port).data) content
  else content ++ ("\nPORT=" ++ toString port ++ "\n").data

/-- The `additional_vars` step of `setup_env_file` for one key: substring
search for `key=`, substitute `key=.*` matches or append a fresh line. -/
def updateVarContent (key value : String) (content : List Char) : List Char :=
  if containsSub ((key ++ "=").data) content then
    subKeySub ((key ++ "=").data) ((key ++ "=" ++ value).data) content
  else content ++ ("\n" ++ key ++ "=" ++ value ++ "\n").data

/-- `BotPortManager.setup_env_file` as a transformation of the env-file
content (reading and writing the file is I/O around it): the PORT update
followed by the `additional_vars` updates in iteration order. -/
def setup_env_file (content : String) (port : Nat)
    (additional_vars : List (String × String)) : String :=
  String.mk
    (additional_vars.foldl (fun c kv => updateVarContent kv.1 kv.2 c)
      (updatePortContent port content.data))

/- ------------------------------------------------------------------ -/
/- Theorems                                                            -/
/- ------------------------------------------------------------------ -/

/-- Looking a key up after mapping a key-preserving function over the entries
applies the function to the found value. -/
theorem alookup_map_entry {α β : Type} (f : String → α → β) :
    ∀ (l : List (String × α)) (k : String),
      alookup k (l.map (fun ki => (ki.1, f ki.1 ki.2))) = (alookup k l).map (f k) := by
  intro l
  induction l with
  | nil => intro k; rfl
  | cons ki rest ih =>
    intro k
    by_cases hk : ki.1 = k
    · subst hk; simp [alookup]
    · simp [alookup, hk, ih]

/-- In the success map of `start_all`, an instance found not running gets the
entry `true`. -/
theorem alookup_start_all_results :
    ∀ (l : List (String × BotInstance)) (id : String) (inst : BotInstance),
      alookup id l = some inst → inst.is_running = false →
      alookup id (l.filterMap
        (fun ki => if ki.2.is_running then none else some (ki.1, true))) = some true := by
  intro l
  induction l with
  | nil => intro id inst h; simp [alookup] at h
  | cons ki rest ih =>
    intro id inst h hr
    by_cases hk : ki.1 = id
    · rw [alookup, if_pos hk] at h
      cases h
      simp [List.filterMap_cons, hr, alookup, hk]
    · rw [alookup, if_neg hk] at h
      cases hki : ki.2.is_running <;>
        simp [List.filterMap_cons, hki, alookup, hk, ih id inst h hr]

/-- In the success map of `stop_all`, an instance found running gets the flag
returned by its `stop()` call. -/
theorem alookup_stop_all_results :
    ∀ (l : List (String × BotInstance)) (id : String) (inst : BotInstance) (now : Nat),
      alookup id l = some inst → inst.is_running = true →
      alookup id (l.filterMap
        (fun ki =>
          if ki.2.is_running then some (ki.1, (BotInstance.stop ki.2 now).1)
          else none)) = some (BotInstance.stop inst now).1 := by
  intro l
  induction l with
  | nil => intro id inst now h; simp [alookup] at h
  | cons ki rest ih =>
    intro id inst now h hr
    by_cases hk : ki.1 = id
    · rw [alookup, if_pos hk] at h
      cases h
      simp [List.filterMap_cons, hr, alookup, hk]
    · rw [alookup, if_neg hk] at h
      cases hki : ki.2.is_running <;>
        simp [List.filterMap_cons, hki, alookup, hk, ih id inst now h hr]

/-- A key that appears in no entry looks up to `none`. -/
theorem alookup_eq_none_of_not_mem {κ α : Type} [DecidableEq κ] :
    ∀ (l : List (κ × α)) (k : κ), k ∉ l.map Prod.fst →
      alookup k l = none := by
  intro l
  induction l with
  | nil => intro k h; rfl
  | cons p rest ih =>
    intro k h
    simp only [List.map_cons, List.mem_cons] at h
    rw [alookup, if_neg (fun e => h (Or.inl e.symm))]
    exact ih k (fun e => h (Or.inr e))

/-- After erasing a key whose bindings are unique, the key is gone. -/
theorem alookup_eraseKey_self {α : Type} :
    ∀ (l : List (String × α)) (k : String), (l.map Prod.fst).Nodup →
      alookup k (eraseKey k l) = none := by
  intro l
  induction l with
  | nil => intro k h; rfl
  | cons p rest ih =>
    intro k h
    simp only [List.map_cons, List.nodup_cons] at h
    by_cases hp : p.1 = k
    · rw [eraseKey, if_pos hp]
      exact alookup_eq_none_of_not_mem rest k (hp ▸ h.1)
    · rw [eraseKey, if_neg hp, alookup, if_neg hp]
      exact ih k h.2

/-- Erasing one key leaves every other key's binding unchanged. -/
theorem alookup_eraseKey_other {α : Type} :
    ∀ (l : List (String × α)) (k other : String), other ≠ k →
      alookup other (eraseKey k l) = alookup other l := by
  intro l
  induction l with
  | nil => intro k other h; rfl
  | cons p rest ih =>
    intro k other h
    by_cases hp : p.1 = k
    · rw [eraseKey, if_pos hp, alookup, if_neg (by rw [hp]; exact fun e => h e.symm)]
    · rw [eraseKey, if_neg hp]
      by_cases hq : p.1 = other
      · rw [alookup, if_pos hq, alookup, if_pos hq]
      · rw [alookup, if_neg hq, alookup, if_neg hq]
        exact ih k other h

/-- The running-instance list of a group is empty exactly when no contained
instance has its `is_running` flag set. -/
theorem running_isEmpty_iff (g : BotGroup) :
    (BotGroup.get_running_instances g).isEmpty = true ↔
      ∀ ki ∈ g.instances, ki.2.is_running = false := by
  unfold BotGroup.get_running_instances
  induction g.instances with
  | nil => simp
  | cons ki rest ih =>
    cases hki : ki.2.is_running <;>
      simp [List.filter_cons, hki, ih]

/-- C1, counterexample.  Start an instance and then `set_error` it: the code
leaves `is_running = true` while the status is `"error"`, which is neither
`"running"` nor `"paused"`, so the claimed sync between the two fields does
not hold after the mutator `set_error`. -/
theorem c1_sync_counterexample :
    let b1 := (BotInstance.start (initInstance "b1" []) [("pid", 41)] 0).2
    let b2 := BotInstance.set_error b1 "boom" 1
    b2.is_running = true ∧ b2.status = "error" ∧
      b2.status ≠ "running" ∧ b2.status ≠ "paused" := by
  decide

/-- C1, amended.  Every mutator except `set_error` preserves the sync
`is_running = true ↔ status ∈ {"running", "paused"}` (and `start`/`stop`
re-establish it outright), but `set_error` forces the status to `"error"`
while leaving `is_running` unchanged, so it breaks the sync exactly on the
instances whose `is_running` flag is set. -/
theorem c1_sync_amended (b : BotInstance) (process_info : List (String × Nat))
    (msg : String) (now : Nat) (h : statusSync b) :
    statusSync (BotInstance.start b process_info now).2 ∧
    statusSync (BotInstance.stop b now).2 ∧
    statusSync (BotInstance.pause b now).2 ∧
    statusSync (BotInstance.resume b now).2 ∧
    (BotInstance.set_error b msg now).is_running = b.is_running ∧
    (BotInstance.set_error b msg now).status = "error" := by
  refine ⟨?_, ?_, ?_, ?_, rfl, rfl⟩
  · simp [statusSync, BotInstance.start]
  · simp [statusSync, BotInstance.stop]
  · by_cases hir : b.is_running = false
    · simpa [BotInstance.pause, hir] using h
    · have hir' : b.is_running = true := by
        revert hir; cases b.is_running <;> simp
      simp [statusSync, BotInstance.pause, hir, hir']
  · by_cases hst : b.status = "paused"
    · have hir' : b.is_running = true := h.mpr (Or.inr hst)
      simp [statusSync, BotInstance.resume, hst, hir']
    · simpa [BotInstance.resume, hst] using h

/-- C1, witness for the amended theorem at a concrete running instance. -/
theorem c1_sync_witness :
    let b1 := (BotInstance.start (initInstance "b1" []) [("pid", 41)] 0).2
    statusSync (BotInstance.start b1 [] 2).2 ∧
    statusSync (BotInstance.stop b1 2).2 ∧
    statusSync (BotInstance.pause b1 2).2 ∧
    statusSync (BotInstance.resume b1 2).2 ∧
    (BotInstance.set_error b1 "m" 2).is_running =
      (BotInstance.start (initInstance "b1" []) [("pid", 41)] 0).2.is_running ∧
    (BotInstance.set_error b1 "m" 2).status = "error" :=
  c1_sync_amended (BotInstance.start (initInstance "b1" []) [("pid", 41)] 0).2
    [] "m" 2 (by decide)

/-- C2, counterexample.  A started-then-paused instance still has
`is_running = true`, so a second `pause()` returns `True` even though the
current status is `"paused"`; the claim demands failure in every state other
than `"running"`. -/
theorem c2_pause_counterexample :
    let b1 := (BotInstance.start (initInstance "b1" []) [("pid", 41)] 0).2
    let b2 := (BotInstance.pause b1 1).2
    b2.status = "paused" ∧ (BotInstance.pause b2 2).1 = true := by
  decide

/-- C2, amended.  `pause()` succeeds exactly when `is_running` is true —
under the `is_running`/`status` sync this means status `"running"` or
`"paused"`, not only `"running"` — setting the status to `"paused"`, and is a
no-op returning failure otherwise; `resume()` succeeds exactly when the
status is `"paused"`, setting it to `"running"`, and otherwise is a no-op
returning failure. -/
theorem c2_pause_resume_amended (b : BotInstance) (now : Nat)
    (h : statusSync b) :
    ((BotInstance.pause b now).1 = true ↔
      (b.status = "running" ∨ b.status = "paused")) ∧
    ((BotInstance.pause b now).1 = true →
      (BotInstance.pause b now).2.status = "paused") ∧
    ((BotInstance.pause b now).1 = false → (BotInstance.pause b now).2 = b) ∧
    ((BotInstance.resume b now).1 = true ↔ b.status = "paused") ∧
    (b.status = "paused" → (BotInstance.resume b now).2.status = "running") ∧
    (b.status ≠ "paused" → (BotInstance.resume b now).2 = b) := by
  unfold statusSync at h
  unfold BotInstance.pause BotInstance.resume
  by_cases hir : b.is_running = false <;>
    by_cases hst : b.status = "paused" <;>
      simp [hir, hst] at h ⊢ <;> tauto

/-- C2, witness for the amended theorem at a concrete paused instance. -/
theorem c2_pause_resume_witness :
    let b2 := (BotInstance.pause
      ((BotInstance.start (initInstance "b1" []) [("pid", 41)] 0).2) 1).2
    ((BotInstance.pause b2 2).1 = true ↔
      (b2.status = "running" ∨ b2.status = "paused")) ∧
    ((BotInstance.pause b2 2).1 = true →
      (BotInstance.pause b2 2).2.status = "paused") ∧
    ((BotInstance.pause b2 2).1 = false → (BotInstance.pause b2 2).2 = b2) ∧
    ((BotInstance.resume b2 2).1 = true ↔ b2.status = "paused") ∧
    (b2.status = "paused" → (BotInstance.resume b2 2).2.status = "running") ∧
    (b2.status ≠ "paused" → (BotInstance.resume b2 2).2 = b2) :=
  c2_pause_resume_amended
    (BotInstance.pause
      ((BotInstance.start (initInstance "b1" []) [("pid", 41)] 0).2) 1).2
    2 (by decide)

/-- C10, confirmed.  `start(process_info)` on an instance whose status is
already `"running"` has no guard: it returns `true`, keeps the status
`"running"` with `is_running = true`, overwrites `pid` (from the new
`process_info`) and `start_time`, and clears `error_message`. -/
theorem c10_start_on_running (b : BotInstance)
    (process_info : List (String × Nat)) (now : Nat)
    (h : b.status = "running") :
    (BotInstance.start b process_info now).1 = true ∧
    (BotInstance.start b process_info now).2.status = "running" ∧
    (BotInstance.start b process_info now).2.is_running = true ∧
    (BotInstance.start b process_info now).2.pid = alookup "pid" process_info ∧
    (BotInstance.start b process_info now).2.start_time = some now ∧
    (BotInstance.start b process_info now).2.error_message = none := by
  unfold BotInstance.start
  exact ⟨rfl, rfl, rfl, rfl, rfl, rfl⟩

/-- C10, witness at a concrete running instance with a fresh pid. -/
theorem c10_start_on_running_witness :
    let b1 := (BotInstance.start (initInstance "b1" []) [("pid", 41)] 0).2
    (BotInstance.start b1 [("pid", 99)] 5).1 = true ∧
    (BotInstance.start b1 [("pid", 99)] 5).2.status = "running" ∧
    (BotInstance.start b1 [("pid", 99)] 5).2.is_running = true ∧
    (BotInstance.start b1 [("pid", 99)] 5).2.pid = alookup "pid" [("pid", 99)] ∧
    (BotInstance.start b1 [("pid", 99)] 5).2.start_time = some 5 ∧
    (BotInstance.start b1 [("pid", 99)] 5).2.error_message = none :=
  c10_start_on_running
    (BotInstance.start (initInstance "b1" []) [("pid", 41)] 0).2
    [("pid", 99)] 5 (by decide)

/-- C3, counterexample.  On a group with one stopped instance, `start_all`
returns the success map `{"b1": true}` but never applies the start
transition: the group is returned unchanged and the instance's status is
still `"stopped"`, not `"running"` as the claim states. -/
theorem c3_start_all_counterexample :
    let g : BotGroup := ⟨"g1", [], [("b1", initInstance "b1" [])]⟩
    (BotGroup.start_all g).1 = [("b1", true)] ∧
    (BotGroup.start_all g).2 = g ∧
    (alookup "b1" (BotGroup.start_all g).2.instances).map BotInstance.status =
      some "stopped" := by
  decide

/-- C3, amended.  `start_all` only builds the per-instance-id success map
(entry `true` for every instance that is not running) and leaves every
instance untouched — actual starting is deferred to the manager/launcher —
while `stop_all`, as claimed, applies the stop transition to every running
instance, leaving it with status `"stopped"`, and returns a per-instance-id
success map. -/
theorem c3_bulk_amended (g : BotGroup) (id : String) (inst : BotInstance)
    (now : Nat) (h : alookup id g.instances = some inst) :
    (BotGroup.start_all g).2 = g ∧
    (inst.is_running = false →
      alookup id (BotGroup.start_all g).1 = some true) ∧
    (inst.is_running = true →
      alookup id (BotGroup.stop_all g now).1 = some true ∧
      alookup id (BotGroup.stop_all g now).2.instances =
        some (BotInstance.stop inst now).2 ∧
      (BotInstance.stop inst now).2.status = "stopped") := by
  refine ⟨rfl, ?_, ?_⟩
  · intro hr
    exact alookup_start_all_results g.instances id inst h hr
  · intro hr
    refine ⟨alookup_stop_all_results g.instances id inst now h hr, ?_, rfl⟩
    show alookup id (g.instances.map
      (fun ki => (ki.1,
        if ki.2.is_running then (BotInstance.stop ki.2 now).2 else ki.2))) = _
    rw [alookup_map_entry
      (fun _ v => if v.is_running then (BotInstance.stop v now).2 else v)
      g.instances id, h]
    simp [hr]

/-- C3, witness for the amended theorem: a group with one stopped and one
running instance. -/
theorem c3_bulk_witness :
    let bR := (BotInstance.start (initInstance "b2" []) [("pid", 7)] 0).2
    let g : BotGroup := ⟨"g1", [], [("b1", initInstance "b1" []), ("b2", bR)]⟩
    (BotGroup.start_all g).2 = g ∧
    (bR.is_running = false → alookup "b2" (BotGroup.start_all g).1 = some true) ∧
    (bR.is_running = true →
      alookup "b2" (BotGroup.stop_all g 3).1 = some true ∧
      alookup "b2" (BotGroup.stop_all g 3).2.instances =
        some (BotInstance.stop bR 3).2 ∧
      (BotInstance.stop bR 3).2.status = "stopped") :=
  c3_bulk_amended
    ⟨"g1", [], [("b1", initInstance "b1" []),
      ("b2", (BotInstance.start (initInstance "b2" []) [("pid", 7)] 0).2)]⟩
    "b2" (BotInstance.start (initInstance "b2" []) [("pid", 7)] 0).2 3
    (by decide)

/-- C6, confirmed.  `delete_group` on a group containing a running instance
(one with its `is_running` flag set, the code's `get_running_instances`
notion of running) returns `false` and leaves the whole registry untouched,
so the group and all its instances stay retrievable unchanged; on an
existing group with no running instance it returns `true` and removes
exactly that group. -/
theorem c6_delete_group (m : MultiBotManager) (name : String) (g : BotGroup)
    (h : alookup name m.groups = some g) :
    ((∃ ki ∈ g.instances, ki.2.is_running = true) →
      MultiBotManager.delete_group m name = (false, m)) ∧
    ((m.groups.map Prod.fst).Nodup →
      (∀ ki ∈ g.instances, ki.2.is_running = false) →
      (MultiBotManager.delete_group m name).1 = true ∧
      alookup name (MultiBotManager.delete_group m name).2.groups = none ∧
      ∀ other, other ≠ name →
        alookup other (MultiBotManager.delete_group m name).2.groups =
          alookup other m.groups) := by
  constructor
  · rintro ⟨ki, hki, hrun⟩
    have hne : (BotGroup.get_running_instances g).isEmpty = false := by
      cases he : (BotGroup.get_running_instances g).isEmpty
      · rfl
      · have := (running_isEmpty_iff g).mp he ki hki
        rw [hrun] at this
        exact absurd this (by simp)
    simp only [MultiBotManager.delete_group, h, hne]
    simp
  · intro hnodup hstopped
    have he : (BotGroup.get_running_instances g).isEmpty = true :=
      (running_isEmpty_iff g).mpr hstopped
    simp only [MultiBotManager.delete_group, h, he, if_true]
    exact ⟨by simp, alookup_eraseKey_self m.groups name hnodup,
      fun other hother => alookup_eraseKey_other m.groups name other hother⟩

/-- C6, witness: a registry with a deletable stopped-only group and one
group protected by a running instance. -/
theorem c6_delete_group_witness :
    let gStop : BotGroup := ⟨"g1", [], [("b1", initInstance "b1" [])]⟩
    let gRun : BotGroup := ⟨"g2", [],
      [("b2", (BotInstance.start (initInstance "b2" []) [("pid", 7)] 0).2)]⟩
    let m : MultiBotManager := ⟨[("g1", gStop), ("g2", gRun)]⟩
    ((∃ ki ∈ gStop.instances, ki.2.is_running = true) →
      MultiBotManager.delete_group m "g1" = (false, m)) ∧
    ((m.groups.map Prod.fst).Nodup →
      (∀ ki ∈ gStop.instances, ki.2.is_running = false) →
      (MultiBotManager.delete_group m "g1").1 = true ∧
      alookup "g1" (MultiBotManager.delete_group m "g1").2.groups = none ∧
      ∀ other, other ≠ "g1" →
        alookup other (MultiBotManager.delete_group m "g1").2.groups =
          alookup other m.groups) :=
  c6_delete_group
    ⟨[("g1", ⟨"g1", [], [("b1", initInstance "b1" [])]⟩),
      ("g2", ⟨"g2", [],
        [("b2", (BotInstance.start (initInstance "b2" []) [("pid", 7)] 0).2)]⟩)]⟩
    "g1" ⟨"g1", [], [("b1", initInstance "b1" [])]⟩ (by decide)

/-- Appending on the right cannot shadow a key that is already bound. -/
theorem alookup_append_of_some {κ α : Type} [DecidableEq κ] :
    ∀ (l1 l2 : List (κ × α)) (k : κ) (v : α),
      alookup k l1 = some v → alookup k (l1 ++ l2) = some v := by
  intro l1
  induction l1 with
  | nil => intro l2 k v h; simp [alookup] at h
  | cons p rest ih =>
    intro l2 k v h
    by_cases hp : p.1 = k
    · rw [alookup, if_pos hp] at h
      rw [List.cons_append, alookup, if_pos hp]
      exact h
    · rw [alookup, if_neg hp] at h
      rw [List.cons_append, alookup, if_neg hp]
      exact ih l2 k v h

/-- A key unbound on the left looks up in the appended tail. -/
theorem alookup_append_of_none {κ α : Type} [DecidableEq κ] :
    ∀ (l1 l2 : List (κ × α)) (k : κ),
      alookup k l1 = none → alookup k (l1 ++ l2) = alookup k l2 := by
  intro l1
  induction l1 with
  | nil => intro l2 k h; rfl
  | cons p rest ih =>
    intro l2 k h
    by_cases hp : p.1 = k
    · rw [alookup, if_pos hp] at h
      cases h
    · rw [alookup, if_neg hp] at h
      rw [List.cons_append, alookup, if_neg hp]
      exact ih l2 k h

/-- A successful lookup exhibits a member of the association list. -/
theorem mem_of_alookup {κ α : Type} [DecidableEq κ] :
    ∀ (l : List (κ × α)) (k : κ) (v : α),
      alookup k l = some v → (k, v) ∈ l := by
  intro l
  induction l with
  | nil => intro k v h; simp [alookup] at h
  | cons p rest ih =>
    intro k v h
    obtain ⟨p1, p2⟩ := p
    by_cases hp : p1 = k
    · subst hp
      simp [alookup] at h
      subst h
      exact List.mem_cons_self _ _
    · rw [alookup, if_neg hp] at h
      exact List.mem_cons_of_mem _ (ih k v h)

/-- An insert-if-absent fold over entries with pairwise distinct keys, none
already bound in the accumulator, appends exactly one entry per element. -/
theorem foldl_insert_absent {σ α : Type} (key : σ → String) (val : σ → α) :
    ∀ (xs : List σ) (acc : List (String × α)),
      (xs.map key).Nodup →
      (∀ x ∈ xs, alookup (key x) acc = none) →
      xs.foldl
          (fun a x =>
            if (alookup (key x) a).isSome then a else a ++ [(key x, val x)])
          acc
        = acc ++ xs.map (fun x => (key x, val x)) := by
  intro xs
  induction xs with
  | nil => intro acc h1 h2; simp
  | cons x rest ih =>
    intro acc h1 h2
    simp only [List.map_cons, List.nodup_cons] at h1
    have hx : alookup (key x) acc = none := h2 x (List.mem_cons_self x rest)
    have hstep :
        (if (alookup (key x) acc).isSome then acc
          else acc ++ [(key x, val x)]) = acc ++ [(key x, val x)] := by
      rw [hx]
      rfl
    have hrest : ∀ y ∈ rest, alookup (key y) (acc ++ [(key x, val x)]) = none := by
      intro y hy
      have hkey : key x ≠ key y := by
        intro e
        exact h1.1 (e ▸ List.mem_map_of_mem key hy)
      rw [alookup_append_of_none acc _ _ (h2 y (List.mem_cons_of_mem x hy)),
        alookup, if_neg hkey]
      rfl
    rw [List.foldl_cons, hstep, ih (acc ++ [(key x, val x)]) h1.2 hrest,
      List.map_cons, List.append_assoc]
    rfl

/-- Rebuilding a group from exported instances with pairwise distinct ids
succeeds for every instance: the result holds exactly the freshly
initialized instances, in order. -/
theorem buildImportedGroup_spec (group_name : String) (d : GroupExport)
    (hnd : (d.instances.map Prod.fst).Nodup) :
    buildImportedGroup group_name d =
      ⟨group_name, d.group_config,
        d.instances.map (fun ki => (ki.1, initInstance ki.1 ki.2.config))⟩ := by
  have aux : ∀ (insts : List (String × InstanceExport)) (g : BotGroup),
      (insts.map Prod.fst).Nodup →
      (∀ ki ∈ insts, alookup ki.1 g.instances = none) →
      insts.foldl
          (fun g ki => (BotGroup.add_instance g (initInstance ki.1 ki.2.config)).2)
          g
        = { g with instances :=
            g.instances ++ insts.map (fun ki => (ki.1, initInstance ki.1 ki.2.config)) } := by
    intro insts
    induction insts with
    | nil => intro g h1 h2; simp
    | cons ki rest ih =>
      intro g h1 h2
      simp only [List.map_cons, List.nodup_cons] at h1
      have hk : alookup ki.1 g.instances = none :=
        h2 ki (List.mem_cons_self ki rest)
      have hstep : (BotGroup.add_instance g (initInstance ki.1 ki.2.config)).2
          = { g with instances := g.instances ++ [(ki.1, initInstance ki.1 ki.2.config)] } := by
        unfold BotGroup.add_instance
        rw [show (initInstance ki.1 ki.2.config).instance_id = ki.1 from rfl, hk]
        rfl
      have hrest : ∀ kj ∈ rest,
          alookup kj.1 (g.instances ++ [(ki.1, initInstance ki.1 ki.2.config)]) = none := by
        intro kj hj
        have hkey : ki.1 ≠ kj.1 := by
          intro e
          exact h1.1 (e ▸ List.mem_map_of_mem Prod.fst hj)
        rw [alookup_append_of_none _ _ _ (h2 kj (List.mem_cons_of_mem ki hj)),
          alookup, if_neg hkey]
        rfl
      rw [List.foldl_cons, hstep, ih _ h1.2 hrest]
      simp [List.append_assoc]
  rw [buildImportedGroup, aux d.instances ⟨group_name, d.group_config, []⟩ hnd
    (by intro ki hki; rfl)]
  simp

/-- Importing an exported registry into a fresh manager rebuilds, in order,
one group per original group. -/
theorem import_export_groups (m : MultiBotManager)
    (hg : (m.groups.map Prod.fst).Nodup) :
    (MultiBotManager.import_config emptyManager
        (MultiBotManager.export_config m)).groups =
      m.groups.map (fun ng => (ng.1, buildImportedGroup ng.1 (exportGroup ng.2))) := by
  have hkeys : ((MultiBotManager.export_config m).map Prod.fst).Nodup := by
    unfold MultiBotManager.export_config
    rw [List.map_map]
    exact hg
  have happ := foldl_insert_absent Prod.fst
    (fun nd : String × GroupExport => buildImportedGroup nd.1 nd.2)
    (MultiBotManager.export_config m) [] hkeys (by intro x hx; rfl)
  unfold MultiBotManager.import_config emptyManager
  rw [show (fun (gs : List (String × BotGroup)) (nd : String × GroupExport) =>
      if (alookup nd.1 gs).isSome then gs
      else gs ++ [(nd.1, buildImportedGroup nd.1 nd.2)]) =
    (fun a x =>
      if (alookup (Prod.fst x) a).isSome then a
      else a ++ [(Prod.fst x,
        (fun nd : String × GroupExport => buildImportedGroup nd.1 nd.2) x)]) from rfl]
  rw [happ, List.nil_append, MultiBotManager.export_config, List.map_map]
  rfl

/-- C7, confirmed.  Exporting a registry and importing the file into a fresh
empty manager rebuilds every group: the group's `group_config` and every
instance's `config` mapping equal the originals, and every restored instance
has status `"stopped"` with `is_running` false, no matter what status it had
at export time — import always goes through `BotInstance.__init__`. -/
theorem c7_export_import_roundtrip (m : MultiBotManager)
    (hg : (m.groups.map Prod.fst).Nodup)
    (hi : ∀ ng ∈ m.groups, (ng.2.instances.map Prod.fst).Nodup)
    (name : String) (g : BotGroup)
    (h : alookup name m.groups = some g) :
    ∃ g2, alookup name (MultiBotManager.import_config emptyManager
        (MultiBotManager.export_config m)).groups = some g2 ∧
      g2.group_config = g.group_config ∧
      ∀ id inst, alookup id g.instances = some inst →
        ∃ i2, alookup id g2.instances = some i2 ∧
          i2.config = inst.config ∧ i2.status = "stopped" ∧
          i2.is_running = false := by
  have hgmem : (name, g) ∈ m.groups := mem_of_alookup m.groups name g h
  have hinodup : (g.instances.map Prod.fst).Nodup := hi (name, g) hgmem
  have hexp : ((exportGroup g).instances.map Prod.fst).Nodup := by
    show ((g.instances.map
      (fun ki => (ki.1, (⟨ki.2.config, ki.2.status⟩ : InstanceExport)))).map
        Prod.fst).Nodup
    rw [List.map_map]
    exact hinodup
  have hlook : alookup name (MultiBotManager.import_config emptyManager
      (MultiBotManager.export_config m)).groups =
      some (buildImportedGroup name (exportGroup g)) := by
    rw [import_export_groups m hg]
    have hmap : alookup name (m.groups.map
        (fun ng => (ng.1, buildImportedGroup ng.1 (exportGroup ng.2)))) =
        (alookup name m.groups).map
          (fun g0 => buildImportedGroup name (exportGroup g0)) :=
      alookup_map_entry (fun n g0 => buildImportedGroup n (exportGroup g0))
        m.groups name
    rw [hmap, h]
    rfl
  refine ⟨buildImportedGroup name (exportGroup g), hlook, ?_, ?_⟩
  · rw [buildImportedGroup_spec name (exportGroup g) hexp]
    rfl
  · intro id inst hinst
    rw [buildImportedGroup_spec name (exportGroup g) hexp]
    have h1 : alookup id (exportGroup g).instances =
        (alookup id g.instances).map
          (fun v => InstanceExport.mk v.config v.status) :=
      @alookup_map_entry BotInstance InstanceExport
        (fun n v => InstanceExport.mk v.config v.status) g.instances id
    have h2 : alookup id ((exportGroup g).instances.map
        (fun ki => (ki.1, initInstance ki.1 ki.2.config))) =
        (alookup id (exportGroup g).instances).map
          (fun e => initInstance id e.config) :=
      alookup_map_entry (fun n e => initInstance n e.config)
        (exportGroup g).instances id
    refine ⟨initInstance id inst.config, ?_, rfl, rfl, rfl⟩
    show alookup id ((exportGroup g).instances.map
        (fun ki => (ki.1, initInstance ki.1 ki.2.config))) =
      some (initInstance id inst.config)
    rw [h2, h1, hinst]
    rfl

/-- C7, witness: a one-group registry whose only instance is running at
export time; after the round trip its config survives and it is stopped. -/
theorem c7_export_import_witness :
    let bR := (BotInstance.start (initInstance "b1" [("a", "b")]) [("pid", 9)] 0).2
    let gW : BotGroup := ⟨"g1", [("k", "v")], [("b1", bR)]⟩
    let m : MultiBotManager := ⟨[("g1", gW)]⟩
    ∃ g2, alookup "g1" (MultiBotManager.import_config emptyManager
        (MultiBotManager.export_config m)).groups = some g2 ∧
      g2.group_config = gW.group_config ∧
      ∀ id inst, alookup id gW.instances = some inst →
        ∃ i2, alookup id g2.instances = some i2 ∧
          i2.config = inst.config ∧ i2.status = "stopped" ∧
          i2.is_running = false :=
  c7_export_import_roundtrip
    ⟨[("g1", ⟨"g1", [("k", "v")],
      [("b1", (BotInstance.start (initInstance "b1" [("a", "b")])
        [("pid", 9)] 0).2)]⟩)]⟩
    (by decide) (by decide) "g1"
    ⟨"g1", [("k", "v")],
      [("b1", (BotInstance.start (initInstance "b1" [("a", "b")])
        [("pid", 9)] 0).2)]⟩
    (by decide)

/-- C8, confirmed.  When the key already has an assigned port, every further
`allocate_port` call — whatever the probe outcomes and whatever preferred
port is passed — returns that same port and leaves the allocator, hence both
`allocated_ports` and `port_mappings`, completely unchanged. -/
theorem c8_allocate_idempotent (probe : Nat → Bool) (a : PortAllocator)
    (instance_id : String) (preferred_port : Option Nat) (p : Nat)
    (h : alookup instance_id a.port_mappings = some p) :
    allocate_port probe a instance_id preferred_port = (some p, a) := by
  unfold allocate_port
  rw [h]

/-- C8, witness: a key holding port 8000 keeps it even when 8100 is
preferred and the probe reports every port free. -/
theorem c8_allocate_idempotent_witness :
    allocate_port (fun _ => true) ⟨8000, 9000, [8000], [("g1_b1", 8000)]⟩
        "g1_b1" (some 8100) =
      (some 8000, ⟨8000, 9000, [8000], [("g1_b1", 8000)]⟩) :=
  c8_allocate_idempotent (fun _ => true)
    ⟨8000, 9000, [8000], [("g1_b1", 8000)]⟩ "g1_b1" (some 8100) 8000
    (by decide)

/-- Python `port in port_to_instances` agrees with lookup success. -/
theorem any_eq_isSome {α : Type} :
    ∀ (acc : List (Nat × α)) (p : Nat),
      acc.any (fun e => decide (e.1 = p)) = (alookup p acc).isSome := by
  intro acc
  induction acc with
  | nil => intro p; rfl
  | cons e rest ih =>
    intro p
    by_cases he : e.1 = p
    · simp [List.any_cons, alookup, he]
    · simp [List.any_cons, alookup, he, ih]

/-- Appending an id to the bucket of port `q` changes only the lookup at `q`. -/
theorem alookup_map_bucket (q : Nat) (k : String) :
    ∀ (acc : List (Nat × List String)) (p : Nat),
      alookup p (acc.map (fun e => if e.1 = q then (e.1, e.2 ++ [k]) else e)) =
        if p = q then (alookup p acc).map (fun l => l ++ [k])
        else alookup p acc := by
  intro acc
  induction acc with
  | nil => intro p; by_cases hpq : p = q <;> simp [alookup, hpq]
  | cons e rest ih =>
    intro p
    by_cases heq : e.1 = q <;> by_cases hep : e.1 = p
    · have hpq : p = q := hep.symm.trans heq
      simp [alookup, heq, hep, hpq]
    · have hpq : ¬ p = q := fun h => hep (heq.trans h.symm)
      have hqp : ¬ q = p := fun h => hpq h.symm
      simp [alookup, heq, hep, hpq, hqp, ih]
    · have hpq : ¬ p = q := fun h => heq (hep.trans h)
      simp [alookup, heq, hep, hpq]
    · simp [alookup, heq, hep, ih]

/-- Lookup across a single appended binding. -/
theorem alookup_snoc {κ α : Type} [DecidableEq κ] (l : List (κ × α))
    (q k : κ) (v : α) :
    alookup k (l ++ [(q, v)]) =
      match alookup k l with
      | some w => some w
      | none => if q = k then some v else none := by
  cases h : alookup k l with
  | some w => simpa using alookup_append_of_some l [(q, v)] k w h
  | none =>
    rw [alookup_append_of_none l [(q, v)] k h]
    simp [alookup]

/-- A key occurring among the entry keys looks up successfully. -/
theorem alookup_isSome_of_mem_keys {κ α : Type} [DecidableEq κ] :
    ∀ (l : List (κ × α)) (k : κ), k ∈ l.map Prod.fst →
      (alookup k l).isSome = true := by
  intro l
  induction l with
  | nil => intro k h; simp at h
  | cons e rest ih =>
    intro k h
    by_cases he : e.1 = k
    · simp [alookup, he]
    · rw [alookup, if_neg he]
      simp only [List.map_cons, List.mem_cons] at h
      rcases h with h1 | h2
      · exact absurd h1.symm he
      · exact ih k h2

/-- With pairwise distinct keys, membership determines the lookup. -/
theorem alookup_of_mem_nodup {κ α : Type} [DecidableEq κ] :
    ∀ (l : List (κ × α)), (l.map Prod.fst).Nodup →
      ∀ k v, (k, v) ∈ l → alookup k l = some v := by
  intro l
  induction l with
  | nil => intro _ k v h; simp at h
  | cons e rest ih =>
    intro hnd k v h
    simp only [List.map_cons, List.nodup_cons] at hnd
    rcases List.mem_cons.mp h with h1 | h2
    · rw [← h1]
      simp [alookup]
    · by_cases he : e.1 = k
      · exfalso
        apply hnd.1
        rw [he]
        exact List.mem_map_of_mem Prod.fst h2
      · rw [alookup, if_neg he]
        exact ih hnd.2 k v h2

/-- The bucket map built by `find_conflicting_ports` holds, under each port
that occurs at all, exactly the mapping's keys for that port in order. -/
theorem portToInstances_fold (p : Nat) :
    ∀ (ms : List (String × Nat)) (acc : List (Nat × List String)),
      alookup p (ms.foldl (fun acc kv => addConflict acc kv.1 kv.2) acc) =
        match alookup p acc with
        | some l => some (l ++ keysFor p ms)
        | none => if keysFor p ms = [] then none else some (keysFor p ms) := by
  intro ms
  induction ms with
  | nil =>
    intro acc
    cases h : alookup p acc <;> simp [keysFor, h]
  | cons kv rest ih =>
    intro acc
    obtain ⟨k, q⟩ := kv
    rw [List.foldl_cons]
    rw [ih (addConflict acc k q)]
    by_cases hq : q = p
    · subst hq
      have hkf : keysFor q ((k, q) :: rest) = k :: keysFor q rest := by
        simp [keysFor, List.filter_cons]
      cases hs : alookup q acc with
      | some l =>
        have hany : acc.any (fun e => decide (e.1 = q)) = true := by
          rw [any_eq_isSome acc q, hs]
          rfl
        have hacc : alookup q (addConflict acc k q) = some (l ++ [k]) := by
          unfold addConflict
          rw [hany, if_pos rfl, alookup_map_bucket q k acc q, if_pos rfl, hs]
          rfl
        rw [hacc, hkf]
        simp [List.append_assoc]
      | none =>
        have hany : acc.any (fun e => decide (e.1 = q)) = false := by
          rw [any_eq_isSome acc q, hs]
          rfl
        have hacc : alookup q (addConflict acc k q) = some [k] := by
          unfold addConflict
          rw [hany, if_neg (by decide), alookup_snoc acc q q [k], hs]
          simp
        rw [hacc, hkf]
        simp
    · have hkf : keysFor p ((k, q) :: rest) = keysFor p rest := by
        simp [keysFor, List.filter_cons, hq]
      have hacc : alookup p (addConflict acc k q) = alookup p acc := by
        unfold addConflict
        by_cases hany : acc.any (fun e => decide (e.1 = q)) = true
        · rw [hany, if_pos rfl, alookup_map_bucket q k acc p,
            if_neg (fun h => hq h.symm)]
        · have hany' : acc.any (fun e => decide (e.1 = q)) = false := by
            revert hany
            cases acc.any (fun e => decide (e.1 = q)) <;> simp
          rw [hany', if_neg (by decide), alookup_snoc acc q p [k]]
          cases hs : alookup p acc
          · simp [hq]
          · simp
      rw [hacc, hkf]

/-- The bucket map has pairwise distinct port keys. -/
theorem portToInstances_keys_nodup :
    ∀ (ms : List (String × Nat)) (acc : List (Nat × List String)),
      (acc.map Prod.fst).Nodup →
      ((ms.foldl (fun acc kv => addConflict acc kv.1 kv.2) acc).map Prod.fst).Nodup := by
  intro ms
  induction ms with
  | nil => intro acc h; exact h
  | cons kv rest ih =>
    intro acc h
    obtain ⟨k, q⟩ := kv
    rw [List.foldl_cons]
    apply ih
    by_cases hany : acc.any (fun e => decide (e.1 = q)) = true
    · have hkeys : (addConflict acc k q).map Prod.fst = acc.map Prod.fst := by
        unfold addConflict
        rw [hany, if_pos rfl, List.map_map]
        apply List.map_congr_left
        intro e he
        by_cases heq : e.1 = q <;> simp [heq]
      rw [hkeys]
      exact h
    · have hany' : acc.any (fun e => decide (e.1 = q)) = false := by
        revert hany
        cases acc.any (fun e => decide (e.1 = q)) <;> simp
      have hnotmem : q ∉ acc.map Prod.fst := by
        intro hm
        have hsome := alookup_isSome_of_mem_keys acc q hm
        rw [← any_eq_isSome acc q, hany'] at hsome
        exact absurd hsome (by decide)
      have hkeys : (addConflict acc k q).map Prod.fst = acc.map Prod.fst ++ [q] := by
        unfold addConflict
        rw [hany', if_neg (by decide)]
        simp
      rw [hkeys, List.nodup_append]
      refine ⟨h, List.nodup_singleton q, ?_⟩
      intro a ha hb
      rw [List.mem_singleton] at hb
      exact hnotmem (hb ▸ ha)

/-- A key belongs to `keysFor p` exactly when it is mapped to `p`. -/
theorem mem_keysFor (ms : List (String × Nat)) (p : Nat) (k : String) :
    k ∈ keysFor p ms ↔ (k, p) ∈ ms := by
  unfold keysFor
  constructor
  · intro h
    obtain ⟨kv, hkv, hfst⟩ := List.mem_map.mp h
    obtain ⟨hin, hcond⟩ := List.mem_filter.mp hkv
    obtain ⟨k1, p1⟩ := kv
    have hp : p1 = p := by simpa using hcond
    have hk : k1 = k := hfst
    rw [← hk, ← hp]
    exact hin
  · intro h
    exact List.mem_map.mpr ⟨(k, p), List.mem_filter.mpr ⟨h, by simp⟩, rfl⟩

/-- Two distinct members force a length of at least two. -/
theorem one_lt_length_of_two_mem {β : Type} :
    ∀ (l : List β) (a b : β), a ∈ l → b ∈ l → a ≠ b → 1 < l.length := by
  intro l a b ha hb hne
  cases l with
  | nil => simp at ha
  | cons x t =>
    cases t with
    | nil =>
      simp at ha hb
      exact absurd (ha.trans hb.symm) hne
    | cons y t2 =>
      simp [List.length_cons]

/-- A duplicate-free list longer than one holds two distinct members. -/
theorem exists_two_of_nodup {β : Type} :
    ∀ (l : List β), l.Nodup → 1 < l.length →
      ∃ a b, a ∈ l ∧ b ∈ l ∧ a ≠ b := by
  intro l hnd hlen
  cases l with
  | nil => simp at hlen
  | cons x t =>
    cases t with
    | nil => simp at hlen
    | cons y t2 =>
      refine ⟨x, y, List.mem_cons_self _ _,
        List.mem_cons_of_mem _ (List.mem_cons_self _ _), ?_⟩
      intro e
      rw [List.nodup_cons] at hnd
      exact hnd.1 (e ▸ List.mem_cons_self y t2)

/-- C9, confirmed.  `find_conflicting_ports` returns the empty mapping
exactly when `port_mappings` is injective (no two distinct keys share a
port); when non-empty, every returned entry pairs a port with exactly the
list of all keys currently assigned that port, of length greater than one,
and conversely every such over-assigned port appears. -/
theorem c9_find_conflicts (a : PortAllocator)
    (hnd : (a.port_mappings.map Prod.fst).Nodup) :
    (find_conflicting_ports a = [] ↔
      ∀ k1 p1 k2 p2, (k1, p1) ∈ a.port_mappings →
        (k2, p2) ∈ a.port_mappings → p1 = p2 → k1 = k2) ∧
    (∀ p l, (p, l) ∈ find_conflicting_ports a →
      l = keysFor p a.port_mappings ∧ 1 < l.length) ∧
    (∀ p, 1 < (keysFor p a.port_mappings).length →
      (p, keysFor p a.port_mappings) ∈ find_conflicting_ports a) := by
  set ms := a.port_mappings with hms
  have hcor : ∀ p, alookup p (portToInstances ms) =
      if keysFor p ms = [] then none else some (keysFor p ms) := by
    intro p
    have hfold := portToInstances_fold p ms []
    simpa [portToInstances] using hfold
  have hnodupP : ((portToInstances ms).map Prod.fst).Nodup :=
    portToInstances_keys_nodup ms [] (by simp)
  have part2 : ∀ p l, (p, l) ∈ find_conflicting_ports a →
      l = keysFor p ms ∧ 1 < l.length := by
    intro p l hmem
    unfold find_conflicting_ports at hmem
    rw [List.mem_filter] at hmem
    have hl := alookup_of_mem_nodup (portToInstances ms) hnodupP p l hmem.1
    rw [hcor p] at hl
    by_cases hke : keysFor p ms = []
    · rw [if_pos hke] at hl
      cases hl
    · rw [if_neg hke] at hl
      refine ⟨(Option.some.injEq _ _ ▸ hl).symm, ?_⟩
      have := hmem.2
      simpa using this
  have part3 : ∀ p, 1 < (keysFor p ms).length →
      (p, keysFor p ms) ∈ find_conflicting_ports a := by
    intro p hp
    have hne : keysFor p ms ≠ [] := by
      intro e
      rw [e] at hp
      simp at hp
    have hl : alookup p (portToInstances ms) = some (keysFor p ms) := by
      rw [hcor p, if_neg hne]
    have hm : (p, keysFor p ms) ∈ portToInstances ms :=
      mem_of_alookup (portToInstances ms) p (keysFor p ms) hl
    unfold find_conflicting_ports
    rw [List.mem_filter]
    exact ⟨hm, by simpa using hp⟩
  refine ⟨⟨?_, ?_⟩, part2, part3⟩
  · intro hempty k1 p1 k2 p2 h1 h2 hpp
    subst hpp
    by_contra hne
    have hk1 : k1 ∈ keysFor p1 ms := (mem_keysFor ms p1 k1).mpr h1
    have hk2 : k2 ∈ keysFor p1 ms := (mem_keysFor ms p1 k2).mpr h2
    have hlen : 1 < (keysFor p1 ms).length :=
      one_lt_length_of_two_mem (keysFor p1 ms) k1 k2 hk1 hk2 hne
    have hin := part3 p1 hlen
    rw [hempty] at hin
    cases hin
  · intro hinj
    by_contra hne
    obtain ⟨e, he⟩ : ∃ e, e ∈ find_conflicting_ports a := by
      cases hfc : find_conflicting_ports a with
      | nil => exact absurd hfc hne
      | cons x t => exact ⟨x, List.mem_cons_self x t⟩
    obtain ⟨p, l⟩ := e
    obtain ⟨hleq, hlen⟩ := part2 p l he
    subst hleq
    have hknodup : (keysFor p ms).Nodup := by
      unfold keysFor
      exact List.Nodup.sublist
        (List.Sublist.map Prod.fst (List.filter_sublist ms)) hnd
    obtain ⟨a1, a2, ha1, ha2, hne2⟩ :=
      exists_two_of_nodup (keysFor p ms) hknodup hlen
    have hm1 : (a1, p) ∈ ms := (mem_keysFor ms p a1).mp ha1
    have hm2 : (a2, p) ∈ ms := (mem_keysFor ms p a2).mp ha2
    exact hne2 (hinj a1 p a2 p hm1 hm2 rfl)

/-- C9, witness: a mapping where two keys were manually forced onto port
8000 while a third sits alone on 8100. -/
theorem c9_find_conflicts_witness :
    let aC : PortAllocator :=
      ⟨8000, 9000, [8000, 8100], [("a", 8000), ("b", 8000), ("c", 8100)]⟩
    (find_conflicting_ports aC = [] ↔
      ∀ k1 p1 k2 p2, (k1, p1) ∈ aC.port_mappings →
        (k2, p2) ∈ aC.port_mappings → p1 = p2 → k1 = k2) ∧
    (∀ p l, (p, l) ∈ find_conflicting_ports aC →
      l = keysFor p aC.port_mappings ∧ 1 < l.length) ∧
    (∀ p, 1 < (keysFor p aC.port_mappings).length →
      (p, keysFor p aC.port_mappings) ∈ find_conflicting_ports aC) :=
  c9_find_conflicts
    ⟨8000, 9000, [8000, 8100], [("a", 8000), ("b", 8000), ("c", 8100)]⟩
    (by decide)

/-- Splitting at an underscore that occurs in neither left part is
unambiguous. -/
theorem underscore_append_inj :
    ∀ (a : List Char) (b c d : List Char), '_' ∉ a → '_' ∉ b →
      a ++ '_' :: c = b ++ '_' :: d → a = b ∧ c = d := by
  intro a
  induction a with
  | nil =>
    intro b c d ha hb h
    cases b with
    | nil => simpa using h
    | cons y ys =>
      rw [List.nil_append, List.cons_append, List.cons.injEq] at h
      exact absurd (List.mem_cons.mpr (Or.inl h.1)) hb
  | cons x xs ih =>
    intro b c d ha hb h
    cases b with
    | nil =>
      rw [List.cons_append, List.nil_append, List.cons.injEq] at h
      exact absurd (List.mem_cons.mpr (Or.inl h.1.symm)) ha
    | cons y ys =>
      rw [List.cons_append, List.cons_append, List.cons.injEq] at h
      have ha2 : '_' ∉ xs := fun hm => ha (List.mem_cons_of_mem x hm)
      have hb2 : '_' ∉ ys := fun hm => hb (List.mem_cons_of_mem y hm)
      obtain ⟨e1, e2⟩ := ih ys c d ha2 hb2 h.2
      exact ⟨by rw [h.1, e1], e2⟩

/-- C5, counterexample.  The pairs `("a_b", "c")` and `("a", "b_c")` are
distinct, yet both produce the composite allocation key `"a_b_c"`, so the
key is not unique per `(group_name, instance_id)` pair once names may
contain underscores — the two instances would share one port slot. -/
theorem c5_key_counterexample :
    make_unique_id "a_b" "c" = make_unique_id "a" "b_c" ∧
    ¬ (("a_b", "c") = (("a" : String), ("b_c" : String))) := by
  constructor
  · decide
  · decide

/-- C5, amended.  The composite key `group_name ++ "_" ++ instance_id` is
injective — distinct pairs give distinct keys, hence independent port
slots — provided the group names contain no underscore; with underscores in
group names the key can collide (see the counterexample). -/
theorem c5_key_amended (g1 i1 g2 i2 : String)
    (h1 : '_' ∉ g1.data) (h2 : '_' ∉ g2.data)
    (h : make_unique_id g1 i1 = make_unique_id g2 i2) :
    g1 = g2 ∧ i1 = i2 := by
  unfold make_unique_id at h
  have hd := congrArg String.data h
  rw [String.data_append, String.data_append, String.data_append,
    String.data_append, List.append_assoc, List.append_assoc] at hd
  have hd2 : g1.data ++ '_' :: i1.data = g2.data ++ '_' :: i2.data := by
    simpa using hd
  obtain ⟨e1, e2⟩ := underscore_append_inj g1.data g2.data i1.data i2.data
    h1 h2 hd2
  constructor
  · cases g1
    cases g2
    exact congrArg String.mk e1
  · cases i1
    cases i2
    exact congrArg String.mk e2

/-- C5, witness for the amended injectivity at underscore-free group names. -/
theorem c5_key_witness :
    '_' ∉ ("g1" : String).data ∧ ("g1" : String) = "g1" ∧ ("b_1" : String) = "b_1" :=
  ⟨by decide,
    c5_key_amended "g1" "b_1" "g1" "b_1" (by decide) (by decide) rfl⟩

/-- C4, counterexample.  On a file containing only `ADAPTER_PORT=1234`, the
claim demands that the unrelated line is preserved verbatim (and a fresh
`PORT=5555` line be appended, since no exact `PORT` key exists); the code's
substring test `'PORT=' in content` and unanchored `re.sub(r'PORT=\d+',...)`
instead rewrite the longer key, producing `ADAPTER_PORT=5555` and losing the
original line. -/
theorem c4_env_counterexample :
    setup_env_file "ADAPTER_PORT=1234\n" 5555 [] = "ADAPTER_PORT=5555\n" ∧
    containsSub ("ADAPTER_PORT=1234".data)
      ((setup_env_file "ADAPTER_PORT=1234\n" 5555 []).data) = false := by
  constructor
  · decide
  · decide

/-- `subPDFuel` on the empty list, for any fuel. -/
theorem subPDFuel_nil (rep : List Char) (f : Nat) : subPDFuel rep f [] = [] := by
  cases f <;> rfl

/-- One scanning step of `subPDFuel` with fuel to spare. -/
theorem subPDFuel_cons (rep : List Char) (fuel : Nat) (c : Char) (rest : List Char) :
    subPDFuel rep (fuel + 1) (c :: rest) =
      if portMatchAt (c :: rest) then
        rep ++ subPDFuel rep fuel
          (List.dropWhile isDigitCh ((c :: rest).drop ("PORT=".data).length))
      else c :: subPDFuel rep fuel rest := rfl

/-- `subKeyFuel` on the empty list, for any fuel. -/
theorem subKeyFuel_nil (pat rep : List Char) (f : Nat) :
    subKeyFuel pat rep f [] = [] := by
  cases f <;> rfl

/-- One scanning step of `subKeyFuel` with fuel to spare. -/
theorem subKeyFuel_cons (pat rep : List Char) (fuel : Nat) (c : Char)
    (rest : List Char) :
    subKeyFuel pat rep (fuel + 1) (c :: rest) =
      if pat.isPrefixOf (c :: rest) then
        rep ++ subKeyFuel pat rep fuel
          (List.dropWhile (fun ch => decide (¬ ch = '\n'))
            (List.drop pat.length (c :: rest)))
      else c :: subKeyFuel pat rep fuel rest := rfl

/-- Unfolding `containsSub` on a non-empty list. -/
theorem containsSub_cons (pat : List Char) (c : Char) (rest : List Char) :
    containsSub pat (c :: rest) =
      (pat.isPrefixOf (c :: rest) || containsSub pat rest) := rfl

/-- The boolean prefix test agrees with the prefix order. -/
theorem isPrefixOf_eq_true_iff :
    ∀ (l1 l2 : List Char), l1.isPrefixOf l2 = true ↔ l1 <+: l2 := by
  intro l1
  induction l1 with
  | nil => intro l2; simp [List.isPrefixOf]
  | cons a as ih =>
    intro l2
    cases l2 with
    | nil => simp [List.isPrefixOf]
    | cons b bs => simp [List.isPrefixOf, ih, List.cons_prefix_cons]

/-- A list is a boolean prefix of itself followed by anything. -/
theorem isPrefixOf_self_append (pat z : List Char) :
    pat.isPrefixOf (pat ++ z) = true :=
  (isPrefixOf_eq_true_iff pat (pat ++ z)).mpr (List.prefix_append pat z)

/-- The fuel in `subPDFuel` is irrelevant once it covers the list length:
any such run equals the canonical `subPortSub`. -/
theorem subPDFuel_fuel (rep : List Char) :
    ∀ (n : Nat) (l : List Char) (f : Nat), l.length ≤ n → l.length ≤ f →
      subPDFuel rep f l = subPortSub rep l := by
  intro n
  induction n with
  | zero =>
    intro l f h1 h2
    have hl : l = [] := List.eq_nil_of_length_eq_zero (Nat.le_zero.mp h1)
    subst hl
    rw [subPDFuel_nil]
    rfl
  | succ n ih =>
    intro l f h1 h2
    cases l with
    | nil =>
      rw [subPDFuel_nil]
      rfl
    | cons c rest =>
      cases f with
      | zero => simp at h2
      | succ f2 =>
        have hc := List.length_cons c rest
        have hr : rest.length ≤ n := by omega
        have hf : rest.length ≤ f2 := by omega
        show subPDFuel rep (f2 + 1) (c :: rest) =
          subPDFuel rep (rest.length + 1 + 1) (c :: rest)
        rw [subPDFuel_cons, subPDFuel_cons]
        by_cases hm : portMatchAt (c :: rest) = true
        · rw [if_pos hm, if_pos hm]
          congr 1
          have h5 : ("PORT=".data).length = 5 := rfl
          have hsub := (@List.dropWhile_sublist Char
            ((c :: rest).drop ("PORT=".data).length) isDigitCh).length_le
          have hd : ((c :: rest).drop ("PORT=".data).length).length
              = (c :: rest).length - ("PORT=".data).length :=
            List.length_drop _ _
          have hlen : (List.dropWhile isDigitCh
              ((c :: rest).drop ("PORT=".data).length)).length ≤ rest.length := by
            omega
          rw [ih _ f2 (le_trans hlen hr) (le_trans hlen hf),
            ih _ (rest.length + 1) (le_trans hlen hr)
              (le_trans hlen (Nat.le_succ _))]
        · rw [if_neg hm, if_neg hm]
          congr 1
          rw [ih rest f2 hr hf, ih rest (rest.length + 1) hr (Nat.le_succ _)]

/-- The fuel in `subKeyFuel` is likewise irrelevant, for a non-empty
pattern. -/
theorem subKeyFuel_fuel (pat rep : List Char) (hpat : pat ≠ []) :
    ∀ (n : Nat) (l : List Char) (f : Nat), l.length ≤ n → l.length ≤ f →
      subKeyFuel pat rep f l = subKeySub pat rep l := by
  intro n
  induction n with
  | zero =>
    intro l f h1 h2
    have hl : l = [] := List.eq_nil_of_length_eq_zero (Nat.le_zero.mp h1)
    subst hl
    rw [subKeyFuel_nil]
    rfl
  | succ n ih =>
    intro l f h1 h2
    cases l with
    | nil =>
      rw [subKeyFuel_nil]
      rfl
    | cons c rest =>
      cases f with
      | zero => simp at h2
      | succ f2 =>
        have hc := List.length_cons c rest
        have hr : rest.length ≤ n := by omega
        have hf : rest.length ≤ f2 := by omega
        show subKeyFuel pat rep (f2 + 1) (c :: rest) =
          subKeyFuel pat rep (rest.length + 1 + 1) (c :: rest)
        rw [subKeyFuel_cons, subKeyFuel_cons]
        by_cases hm : pat.isPrefixOf (c :: rest) = true
        · rw [if_pos hm, if_pos hm]
          congr 1
          have hp1 : 0 < pat.length := List.length_pos.mpr hpat
          have hsub := (@List.dropWhile_sublist Char
            (List.drop pat.length (c :: rest))
            (fun ch => decide (¬ ch = '\n'))).length_le
          have hd : (List.drop pat.length (c :: rest)).length
              = (c :: rest).length - pat.length := List.length_drop _ _
          have hlen : (List.dropWhile (fun ch => decide (¬ ch = '\n'))
              (List.drop pat.length (c :: rest))).length ≤ rest.length := by
            omega
          rw [ih _ f2 (le_trans hlen hr) (le_trans hlen hf),
            ih _ (rest.length + 1) (le_trans hlen hr)
              (le_trans hlen (Nat.le_succ _))]
        · rw [if_neg hm, if_neg hm]
          congr 1
          rw [ih rest f2 hr hf, ih rest (rest.length + 1) hr (Nat.le_succ _)]

/-- At a non-match position, the PORT scanner copies one character. -/
theorem subPortSub_neg (rep : List Char) (c : Char) (rest : List Char)
    (h : portMatchAt (c :: rest) = false) :
    subPortSub rep (c :: rest) = c :: subPortSub rep rest := by
  show subPDFuel rep (rest.length + 1 + 1) (c :: rest) = _
  rw [subPDFuel_cons, if_neg (by simp [h])]
  rfl

/-- At a match, the PORT scanner emits the replacement and resumes after the
greedy digit run. -/
theorem subPortSub_pos (rep : List Char) (l : List Char)
    (h : portMatchAt l = true) :
    subPortSub rep l =
      rep ++ subPortSub rep
        (List.dropWhile isDigitCh (l.drop ("PORT=".data).length)) := by
  cases l with
  | nil => exact absurd h (by decide)
  | cons c rest =>
    show subPDFuel rep (rest.length + 1 + 1) (c :: rest) = _
    rw [subPDFuel_cons, if_pos h]
    congr 1
    have h5 : ("PORT=".data).length = 5 := rfl
    have hsub := (@List.dropWhile_sublist Char
      ((c :: rest).drop ("PORT=".data).length) isDigitCh).length_le
    have hd : ((c :: rest).drop ("PORT=".data).length).length
        = (c :: rest).length - ("PORT=".data).length := List.length_drop _ _
    have hc := List.length_cons c rest
    exact subPDFuel_fuel rep
      (List.dropWhile isDigitCh ((c :: rest).drop ("PORT=".data).length)).length
      _ (rest.length + 1) (le_refl _) (by omega)

/-- Content without the substring `PORT=` passes through the PORT scanner
unchanged. -/
theorem subPortSub_id (rep : List Char) :
    ∀ (l : List Char), containsSub ("PORT=".data) l = false →
      subPortSub rep l = l := by
  intro l
  induction l with
  | nil => intro h; rfl
  | cons c rest ih =>
    intro h
    rw [containsSub_cons, Bool.or_eq_false_iff] at h
    have hm : portMatchAt (c :: rest) = false := by
      unfold portMatchAt
      rw [h.1]
      rfl
    rw [subPortSub_neg rep c rest hm, ih h.2]

/-- At a non-match position, the key scanner copies one character. -/
theorem subKeySub_neg (pat rep : List Char) (c : Char) (rest : List Char)
    (h : pat.isPrefixOf (c :: rest) = false) :
    subKeySub pat rep (c :: rest) = c :: subKeySub pat rep rest := by
  show subKeyFuel pat rep (rest.length + 1 + 1) (c :: rest) = _
  rw [subKeyFuel_cons, if_neg (by simp [h])]
  rfl

/-- At a match, the key scanner emits the replacement and resumes at the end
of the line. -/
theorem subKeySub_pos (pat rep : List Char) (l : List Char) (hpat : pat ≠ [])
    (h : pat.isPrefixOf l = true) :
    subKeySub pat rep l =
      rep ++ subKeySub pat rep
        (List.dropWhile (fun ch => decide (¬ ch = '\n'))
          (List.drop pat.length l)) := by
  cases l with
  | nil =>
    cases pat with
    | nil => exact absurd rfl hpat
    | cons x xs => simp [List.isPrefixOf] at h
  | cons c rest =>
    show subKeyFuel pat rep (rest.length + 1 + 1) (c :: rest) = _
    rw [subKeyFuel_cons, if_pos h]
    congr 1
    have hp1 : 0 < pat.length := List.length_pos.mpr hpat
    have hsub := (@List.dropWhile_sublist Char
      (List.drop pat.length (c :: rest))
      (fun ch => decide (¬ ch = '\n'))).length_le
    have hd : (List.drop pat.length (c :: rest)).length
        = (c :: rest).length - pat.length := List.length_drop _ _
    have hc := List.length_cons c rest
    exact subKeyFuel_fuel pat rep hpat
      (List.dropWhile (fun ch => decide (¬ ch = '\n'))
        (List.drop pat.length (c :: rest))).length
      _ (rest.length + 1) (le_refl _) (by omega)

/-- Content without the substring `pat` passes through the key scanner
unchanged. -/
theorem subKeySub_id (pat rep : List Char) :
    ∀ (l : List Char), containsSub pat l = false → subKeySub pat rep l = l := by
  intro l
  induction l with
  | nil => intro h; rfl
  | cons c rest ih =>
    intro h
    rw [containsSub_cons, Bool.or_eq_false_iff] at h
    rw [subKeySub_neg pat rep c rest h.1, ih h.2]

/-- Dropping while a predicate holds skips a block that satisfies it
throughout. -/
theorem dropWhile_append_of_all (p : Char → Bool) :
    ∀ (a b : List Char), (∀ x ∈ a, p x = true) →
      List.dropWhile p (a ++ b) = List.dropWhile p b := by
  intro a
  induction a with
  | nil => intro b h; rfl
  | cons x a2 ih =>
    intro b h
    rw [List.cons_append, List.dropWhile_cons,
      if_pos (h x (List.mem_cons_self _ _))]
    exact ih b (fun y hy => h y (List.mem_cons_of_mem _ hy))

/-- Dropping while a predicate holds stops at once on an empty list or a
failing head. -/
theorem dropWhile_head_stop (p : Char → Bool) (b : List Char)
    (h : b = [] ∨ ∃ c r, b = c :: r ∧ p c = false) :
    List.dropWhile p b = b := by
  rcases h with h | ⟨c, r, hb, hc⟩
  · subst h
    rfl
  · subst hb
    rw [List.dropWhile_cons, if_neg (by simp [hc])]

/-- A pattern of shape `front ++ [ch]` with `ch` absent from `front` cannot
match straddling the boundary between a match-free prefix and an explicit
occurrence: the leftmost match in `pre ++ pat ++ z` with `pat`-free `pre`
sits exactly at the boundary. -/
theorem no_straddle (front : List Char) (ch : Char) (hch : ch ∉ front) :
    ∀ (pre z : List Char),
      containsSub (front ++ [ch]) pre = false →
      (front ++ [ch]).isPrefixOf (pre ++ ((front ++ [ch]) ++ z)) = true →
      pre = [] := by
  intro pre z hc hp
  cases pre with
  | nil => rfl
  | cons c pre2 =>
    exfalso
    have hpre : (front ++ [ch]) <+: ((c :: pre2) ++ ((front ++ [ch]) ++ z)) :=
      (isPrefixOf_eq_true_iff _ _).mp hp
    have htake : front ++ [ch]
        = ((c :: pre2) ++ ((front ++ [ch]) ++ z)).take (front ++ [ch]).length :=
      List.prefix_iff_eq_take.mp hpre
    rw [List.take_append_eq_append_take] at htake
    by_cases hlen : (front ++ [ch]).length ≤ (c :: pre2).length
    · rw [Nat.sub_eq_zero_of_le hlen, List.take_zero, List.append_nil] at htake
      have hpp : (front ++ [ch]) <+: (c :: pre2) := by
        rw [htake]
        exact List.take_prefix _ _
      have hcc : containsSub (front ++ [ch]) (c :: pre2) = true := by
        rw [containsSub_cons, (isPrefixOf_eq_true_iff _ _).mpr hpp]
        rfl
      rw [hcc] at hc
      cases hc
    · have hm : (c :: pre2).length < (front ++ [ch]).length :=
        Nat.lt_of_not_le hlen
      have htk : ((front ++ [ch]) ++ z).take
            ((front ++ [ch]).length - (c :: pre2).length)
          = (front ++ [ch]).take ((front ++ [ch]).length - (c :: pre2).length) := by
        rw [List.take_append_eq_append_take,
          Nat.sub_eq_zero_of_le (Nat.sub_le _ _), List.take_zero,
          List.append_nil]
      rw [htk, List.take_of_length_le (Nat.le_of_lt hm)] at htake
      have hdrop : (front ++ [ch]).drop (c :: pre2).length
          = (front ++ [ch]).take ((front ++ [ch]).length - (c :: pre2).length) := by
        conv_lhs => rw [htake]
        exact List.drop_left _ _
      have hlf : (front ++ [ch]).length = front.length + 1 := by
        rw [List.length_append]
        rfl
      have hlp : (c :: pre2).length = pre2.length + 1 := List.length_cons _ _
      have hmemL : ch ∈ (front ++ [ch]).drop (c :: pre2).length := by
        rw [List.drop_append_eq_append_drop,
          Nat.sub_eq_zero_of_le (by omega), List.drop_zero]
        exact List.mem_append_right _ (List.mem_singleton.mpr rfl)
      have hmemR : ch ∉ (front ++ [ch]).take
          ((front ++ [ch]).length - (c :: pre2).length) := by
        intro hmem
        rw [List.take_append_eq_append_take,
          Nat.sub_eq_zero_of_le
            (show (front ++ [ch]).length - (c :: pre2).length ≤ front.length
              from by omega),
          List.take_zero, List.append_nil] at hmem
        exact hch (List.take_subset _ _ hmem)
      rw [hdrop] at hmemL
      exact hmemR hmemL

/-- The PORT scanner rewrites the leftmost `PORT=` + digits occurrence —
wherever it sits, in particular inside a longer key — copies the match-free
prefix verbatim, and continues after the digit run; applied repeatedly this
rewrites every occurrence. -/
theorem subPortSub_rewrite (rep : List Char) :
    ∀ (pre ds rest : List Char),
      containsSub ("PORT=".data) pre = false →
      ds ≠ [] → (∀ c ∈ ds, isDigitCh c = true) →
      headDigit rest = false →
      subPortSub rep (pre ++ ("PORT=".data ++ (ds ++ rest))) =
        pre ++ (rep ++ subPortSub rep rest) := by
  intro pre
  induction pre with
  | nil =>
    intro ds rest hpre hne hdig hrest
    rw [List.nil_append, List.nil_append]
    have hdrop : ("PORT=".data ++ (ds ++ rest)).drop ("PORT=".data).length
        = ds ++ rest := List.drop_left _ _
    have hm : portMatchAt ("PORT=".data ++ (ds ++ rest)) = true := by
      unfold portMatchAt
      rw [isPrefixOf_self_append, hdrop]
      cases ds with
      | nil => exact absurd rfl hne
      | cons d ds2 =>
        rw [List.cons_append]
        show (true && isDigitCh d) = true
        rw [Bool.true_and]
        exact hdig d (List.mem_cons_self _ _)
    rw [subPortSub_pos rep _ hm, hdrop]
    congr 1
    rw [dropWhile_append_of_all isDigitCh ds rest hdig]
    congr 1
    apply dropWhile_head_stop
    cases rest with
    | nil => exact Or.inl rfl
    | cons c r => exact Or.inr ⟨c, r, rfl, hrest⟩
  | cons c pre2 ih =>
    intro ds rest hpre hne hdig hrest
    have hporteq : "PORT".data ++ ['='] = "PORT=".data := by decide
    have hm : portMatchAt ((c :: pre2) ++ ("PORT=".data ++ (ds ++ rest))) = false := by
      unfold portMatchAt
      cases hcase : ("PORT=".data).isPrefixOf
          ((c :: pre2) ++ ("PORT=".data ++ (ds ++ rest))) with
      | false => rfl
      | true =>
        have h0 : (c :: pre2) = [] := by
          apply no_straddle "PORT".data '=' (by decide) (c :: pre2) (ds ++ rest)
          · rw [hporteq]
            exact hpre
          · rw [hporteq]
            exact hcase
        cases h0
    rw [List.cons_append] at hm
    rw [List.cons_append, subPortSub_neg rep c _ hm]
    rw [containsSub_cons, Bool.or_eq_false_iff] at hpre
    rw [ih ds rest hpre.2 hne hdig hrest]
    rfl

/-- The key scanner, for a pattern `key=` whose key does not itself contain
`=`, rewrites the leftmost occurrence of `key=` + rest-of-line, copies the
match-free prefix verbatim, and continues at the line break; applied
repeatedly this rewrites every occurrence. -/
theorem subKeySub_rewrite (front : List Char) (ch : Char) (rep : List Char)
    (hch : ch ∉ front) :
    ∀ (pre lineRest rest : List Char),
      containsSub (front ++ [ch]) pre = false →
      (∀ x ∈ lineRest, (fun ch2 => decide (¬ ch2 = '\n')) x = true) →
      (rest = [] ∨ ∃ r, rest = '\n' :: r) →
      subKeySub (front ++ [ch]) rep
          (pre ++ ((front ++ [ch]) ++ (lineRest ++ rest))) =
        pre ++ (rep ++ subKeySub (front ++ [ch]) rep rest) := by
  intro pre
  induction pre with
  | nil =>
    intro lineRest rest hpre hline hrest
    rw [List.nil_append, List.nil_append]
    have hp : (front ++ [ch]) ≠ [] := by simp
    rw [subKeySub_pos (front ++ [ch]) rep _ hp (isPrefixOf_self_append _ _)]
    congr 1
    rw [List.drop_left]
    congr 1
    rw [dropWhile_append_of_all _ lineRest rest hline]
    apply dropWhile_head_stop
    cases hrest with
    | inl h => exact Or.inl h
    | inr h =>
      obtain ⟨r, hr⟩ := h
      exact Or.inr ⟨'\n', r, hr, by decide⟩
  | cons c pre2 ih =>
    intro lineRest rest hpre hline hrest
    have hm : (front ++ [ch]).isPrefixOf
        ((c :: pre2) ++ ((front ++ [ch]) ++ (lineRest ++ rest))) = false := by
      cases hcase : (front ++ [ch]).isPrefixOf
          ((c :: pre2) ++ ((front ++ [ch]) ++ (lineRest ++ rest))) with
      | false => rfl
      | true =>
        have h0 : (c :: pre2) = [] :=
          no_straddle front ch hch (c :: pre2) (lineRest ++ rest) hpre hcase
        cases h0
    rw [List.cons_append] at hm
    rw [List.cons_append, subKeySub_neg (front ++ [ch]) rep c _ hm]
    rw [containsSub_cons, Bool.or_eq_false_iff] at hpre
    rw [ih lineRest rest hpre.2 hline hrest]
    rfl

/-- C4, amended.  `setup_env_file` matches `PORT=` (and each `extra_vars`
key) as a substring, not as an exact key.  In full: when the substring
`PORT=` is absent the file is preserved verbatim and a fresh `PORT=<port>`
line is appended; when it is present the append is skipped and instead every
occurrence of `PORT=` followed by digits — wherever it sits, in particular
inside a longer key such as `ADAPTER_PORT` — is rewritten to `PORT=<port>`,
the match-free stretches in between copied verbatim (leftmost-occurrence
decomposition plus no-occurrence identity).  The same substring
replace-or-append policy applies per `extra_vars` entry `key=value`: absent
`key=` means verbatim content plus an appended line, present `key=` means
every `key=`-to-end-of-line occurrence becomes `key=value`.  On the
scenario-D file the outcome is as the claim states: `PORT=5555` and
`LOG_LEVEL=INFO`, no duplicate keys, nothing else changed. -/
theorem c4_env_amended :
    (setup_env_file "PORT=1234\nLOG_LEVEL=DEBUG\n" 5555 [("LOG_LEVEL", "INFO")] =
      "PORT=5555\nLOG_LEVEL=INFO\n") ∧
    (∀ (content : String) (port : Nat),
      containsSub ("PORT=".data) content.data = false →
      setup_env_file content port [] =
        content ++ ("\nPORT=" ++ toString port ++ "\n")) ∧
    (∀ (port : Nat) (content : List Char),
      containsSub ("PORT=".data) content = true →
      updatePortContent port content =
        subPortSub (("PORT=" ++ toString port).data) content) ∧
    (∀ (rep pre ds rest : List Char),
      containsSub ("PORT=".data) pre = false →
      ds ≠ [] → (∀ c ∈ ds, isDigitCh c = true) → headDigit rest = false →
      subPortSub rep (pre ++ ("PORT=".data ++ (ds ++ rest))) =
        pre ++ (rep ++ subPortSub rep rest)) ∧
    (∀ (rep l : List Char),
      containsSub ("PORT=".data) l = false → subPortSub rep l = l) ∧
    (∀ (key value : String) (content : List Char),
      containsSub ((key ++ "=").data) content = false →
      updateVarContent key value content =
        content ++ ("\n" ++ key ++ "=" ++ value ++ "\n").data) ∧
    (∀ (key value : String) (content : List Char),
      containsSub ((key ++ "=").data) content = true →
      updateVarContent key value content =
        subKeySub ((key ++ "=").data) ((key ++ "=" ++ value).data) content) ∧
    (∀ (key value : String) (pre lineRest rest : List Char),
      ('=' : Char) ∉ key.data →
      containsSub ((key ++ "=").data) pre = false →
      (∀ x ∈ lineRest, ¬ x = '\n') →
      (rest = [] ∨ ∃ r, rest = '\n' :: r) →
      subKeySub ((key ++ "=").data) ((key ++ "=" ++ value).data)
          (pre ++ ((key ++ "=").data ++ (lineRest ++ rest))) =
        pre ++ ((key ++ "=" ++ value).data ++
          subKeySub ((key ++ "=").data) ((key ++ "=" ++ value).data) rest)) ∧
    (∀ (pat rep l : List Char),
      containsSub pat l = false → subKeySub pat rep l = l) := by
  refine ⟨by decide, ?_, ?_, ?_, ?_, ?_, ?_, ?_, ?_⟩
  · intro content port h
    show String.mk (updatePortContent port content.data) = _
    unfold updatePortContent
    rw [h, if_neg (by decide)]
    cases content
    rfl
  · intro port content h
    unfold updatePortContent
    rw [h, if_pos rfl]
  · exact fun rep pre ds rest h1 h2 h3 h4 =>
      subPortSub_rewrite rep pre ds rest h1 h2 h3 h4
  · exact fun rep l h => subPortSub_id rep l h
  · intro key value content h
    unfold updateVarContent
    rw [h, if_neg (by decide)]
  · intro key value content h
    unfold updateVarContent
    rw [h, if_pos rfl]
  · intro key value pre lineRest rest hk hpre hline hrest
    have hpat : (key ++ "=").data = key.data ++ ['='] := by
      rw [String.data_append]
    rw [hpat] at hpre ⊢
    exact subKeySub_rewrite key.data '=' ((key ++ "=" ++ value).data) hk pre
      lineRest rest hpre (fun x hx => decide_eq_true (hline x hx)) hrest
  · exact fun pat rep l h => subKeySub_id pat rep l h

/-- C4, witness: every hypothesis of the amended theorem exercised at
concrete inputs — the append branch, both replace-branch bridges, a
leftmost `PORT=123` and `K=old` rewrite with non-trivial surroundings, and
the no-occurrence terminal cases. -/
theorem c4_env_witness :
    (setup_env_file "X=1\n" 7 [] =
      ("X=1\n" : String) ++ ("\nPORT=" ++ toString 7 ++ "\n")) ∧
    (updatePortContent 7 ("PORT=1\n".data) =
      subPortSub (("PORT=" ++ toString 7).data) ("PORT=1\n".data)) ∧
    (subPortSub ("PORT=7".data)
        ("A=".data ++ ("PORT=".data ++ ("123".data ++ "\nB=2".data))) =
      "A=".data ++ ("PORT=7".data ++ subPortSub ("PORT=7".data) ("\nB=2".data))) ∧
    (subPortSub ("PORT=7".data) ("\nB=2".data) = "\nB=2".data) ∧
    (updateVarContent "K" "v" ("X=1\n".data) =
      "X=1\n".data ++ ("\n" ++ "K" ++ "=" ++ "v" ++ "\n").data) ∧
    (updateVarContent "K" "v" ("K=0\n".data) =
      subKeySub (("K" ++ "=").data) (("K" ++ "=" ++ "v").data) ("K=0\n".data)) ∧
    (subKeySub (("K" ++ "=").data) (("K" ++ "=" ++ "v").data)
        ("A=1\n".data ++ (("K" ++ "=").data ++ ("old".data ++ "\nB=2".data))) =
      "A=1\n".data ++ (("K" ++ "=" ++ "v").data ++
        subKeySub (("K" ++ "=").data) (("K" ++ "=" ++ "v").data)
          ("\nB=2".data))) ∧
    (subKeySub ("K=".data) ("K=v".data) ("\nB=2".data) = "\nB=2".data) := by
  obtain ⟨h1, h2, h3, h4, h5, h6, h7, h8, h9⟩ := c4_env_amended
  exact ⟨h2 "X=1\n" 7 (by decide),
    h3 7 ("PORT=1\n".data) (by decide),
    h4 ("PORT=7".data) ("A=".data) ("123".data) ("\nB=2".data) (by decide)
      (by decide) (by decide) (by decide),
    h5 ("PORT=7".data) ("\nB=2".data) (by decide),
    h6 "K" "v" ("X=1\n".data) (by decide),
    h7 "K" "v" ("K=0\n".data) (by decide),
    h8 "K" "v" ("A=1\n".data) ("old".data) ("\nB=2".data) (by decide)
      (by decide) (by decide) (Or.inr ⟨"B=2".data, rfl⟩),
    h9 ("K=".data) ("K=v".data) ("\nB=2".data) (by decide)⟩
